import Mathlib

/-!
Verification development for the Hopper extraction engine.

The source under scrutiny is a browser extension that extracts a normalized
conversation transcript from the rendered document of four chat web
applications (ChatGPT, Qwen, Claude, DeepSeek).  Each platform strategy is a
JavaScript object exposing `detectMessages`, `getContainer`, timing constants
and related operations.  This file gives a shallow embedding of those
operations over a small DOM model and proves or refutes the frozen claims
about them.

Modelling conventions:
* DOM nodes are `Dom` trees carrying tag name, `id` attribute, raw `class`
  attribute string, an attribute list and children.  Node identity is
  represented by the node's preorder position in the scanned tree.
* JavaScript strings are Lean `String`s; `trim`, `replace(/\s+/g, ' ')`,
  `substring`, `toLowerCase`, `includes`, `startsWith`, `endsWith` are
  re-implemented character-exactly for ASCII inputs below.
* JavaScript floating point products `len * 0.8`, `len * 0.7`, `len * 0.5`
  appearing in comparisons are modelled by the exact rational comparisons
  `5*a < 4*b`, `10*a ≥ 7*b`, `2*a ≥ b`; the claims under study never sit on
  the float rounding boundary.
* `Date.now()` is an explicit `now : Nat` parameter.
-/

/-- JS `\s` whitespace (ASCII range, which covers every input in this file). -/
def isWsChar (c : Char) : Bool :=
  c = ' ' || c = '\t' || c = '\n' || c = '\r' || c = '\x0b' || c = '\x0c'

/-- Remove the trailing whitespace run of a character list. -/
def dropEndWs : List Char → List Char
  | [] => []
  | c :: cs =>
      match dropEndWs cs with
      | [] => if isWsChar c then [] else [c]
      | d :: ds => c :: d :: ds

/-- Character-list core of JS `String.prototype.trim`: strip the leading
and the trailing whitespace run. -/
def trimChars (l : List Char) : List Char := dropEndWs (l.dropWhile isWsChar)

/-- JS `s.trim()`. -/
def jsTrim (s : String) : String := (trimChars s.toList).asString

/-- Core of JS `s.replace(/\s+/g, ' ')`: the flag records whether the
previous character was part of a whitespace run already emitted as `' '`. -/
def collapseGo : Bool → List Char → List Char
  | _, [] => []
  | prev, c :: cs =>
      if isWsChar c then
        if prev then collapseGo true cs else ' ' :: collapseGo true cs
      else c :: collapseGo false cs

/-- JS `s.replace(/\s+/g, ' ')`. -/
def collapseWs (s : String) : String := (collapseGo false s.toList).asString

/-- JS `s.replace(/\s+/g, ' ').trim()` — the normalization used by the
ChatGPT and DeepSeek strategies. -/
def normWs (s : String) : String := jsTrim (collapseWs s)

/-- JS `s.substring(0, n)` (code points; inputs here are ASCII). -/
def jsTake (n : Nat) (s : String) : String := (s.toList.take n).asString

/-- JS `s.replace(/\s/g, '')`. -/
def stripAllWs (s : String) : String := (s.toList.filter (fun c => !isWsChar c)).asString

/-- The content fingerprint every strategy uses inside generated ids:
`content.substring(0, 50).replace(/\s/g, '').substring(0, 20)`. -/
def contentHash (s : String) : String := jsTake 20 (stripAllWs (jsTake 50 s))

/-- JS `s.toLowerCase()` (ASCII). -/
def lowerStr (s : String) : String := (s.toList.map Char.toLower).asString

/-- Does the second list start with the first one? -/
def chStarts : List Char → List Char → Bool
  | [], _ => true
  | _ :: _, [] => false
  | p :: ps, c :: cs => p = c && chStarts ps cs

/-- Does the second list contain the first as a contiguous run? -/
def chInfix (pat : List Char) : List Char → Bool
  | [] => chStarts pat []
  | c :: cs => chStarts pat (c :: cs) || chInfix pat cs

/-- JS `s.includes(sub)`. -/
def strContains (s sub : String) : Bool := chInfix sub.toList s.toList

/-- JS `s.startsWith(p)`. -/
def strStarts (s p : String) : Bool := chStarts p.toList s.toList

/-- JS `s.endsWith(p)`. -/
def strEnds (s p : String) : Bool := chStarts p.toList.reverse s.toList.reverse

/-- Split on whitespace, the token view `classList` exposes of a raw
`class` attribute string. -/
def splitWsGo : List Char → List Char → List String
  | cur, [] => [cur.reverse.asString]
  | cur, c :: cs =>
      if isWsChar c then cur.reverse.asString :: splitWsGo [] cs
      else splitWsGo (c :: cur) cs

/-- The class tokens of a raw `class` attribute value. -/
def classWords (cn : String) : List String := splitWsGo [] cn.toList

/-- JS `Array.prototype.join(sep)`. -/
def joinWith (sep : String) : List String → String
  | [] => ""
  | [x] => x
  | x :: xs => x ++ sep ++ joinWith sep xs

mutual
/-- A rendered DOM node: element (tag, `id` attribute, raw `class`
attribute, other attributes, children) or text. -/
inductive Dom where
  | el (tag idAttr className : String) (attrs : List (String × String)) (children : DomForest)
  | txt (s : String)
  deriving Repr, DecidableEq
/-- A list of sibling DOM nodes (kept mutual so every traversal below is
structurally recursive and hence computable by the kernel). -/
inductive DomForest where
  | nil : DomForest
  | cons (d : Dom) (ds : DomForest) : DomForest
  deriving Repr, DecidableEq
end

def Dom.tag : Dom → String
  | .el t _ _ _ _ => t
  | .txt _ => ""

def Dom.idAttr : Dom → String
  | .el _ i _ _ _ => i
  | .txt _ => ""

def Dom.className : Dom → String
  | .el _ _ c _ _ => c
  | .txt _ => ""

def Dom.attrs : Dom → List (String × String)
  | .el _ _ _ a _ => a
  | .txt _ => []

def Dom.isElem : Dom → Bool
  | .el _ _ _ _ _ => true
  | .txt _ => false

/-- JS `el.getAttribute(name)` (None models `null`). -/
def Dom.getAttr (d : Dom) (a : String) : Option String :=
  (d.attrs.find? (fun p => p.1 = a)).map (·.2)

mutual
/-- `textContent` of a node: concatenation of all descendant text. -/
def domText : Dom → String
  | .el _ _ _ _ cs => forestText cs
  | .txt s => s
def forestText : DomForest → String
  | .nil => ""
  | .cons d ds => domText d ++ forestText ds
end

/-- CSS `.w` class selector test. -/
def hasClassTok (w : String) (d : Dom) : Bool :=
  d.isElem && (classWords d.className).contains w

/-- CSS `[class*="sub"]` test (substring of the raw attribute value). -/
def classContains (sub : String) (d : Dom) : Bool :=
  d.isElem && strContains d.className sub

/-- CSS tag selector test. -/
def hasTag (t : String) (d : Dom) : Bool := d.isElem && d.tag = t

/-- CSS `[a]` attribute-presence test. -/
def hasAttr (a : String) (d : Dom) : Bool := (d.getAttr a).isSome

/-- CSS `[a="v"]` attribute-equality test. -/
def attrEq (a v : String) (d : Dom) : Bool := d.getAttr a = some v

/-- CSS `#i` id test. -/
def idIs (i : String) (d : Dom) : Bool := d.isElem && d.idAttr = i

mutual
/-- First node of a subtree (root included) matching `p`, in document
(preorder) order. -/
def qsD (p : Dom → Bool) : Dom → Option Dom
  | .txt _ => none
  | .el t i c a cs =>
      if p (.el t i c a cs) then some (.el t i c a cs) else qsF p cs
def qsF (p : Dom → Bool) : DomForest → Option Dom
  | .nil => none
  | .cons d ds =>
      match qsD p d with
      | some r => some r
      | none => qsF p ds
end

/-- JS `el.querySelector(sel)` for a simple selector: first matching strict
descendant of `el` in document order. -/
def querySelInside (p : Dom → Bool) : Dom → Option Dom
  | .txt _ => none
  | .el _ _ _ _ cs => qsF p cs

/-- JS `document.querySelector(sel)`: the whole tree, root included. -/
def docQuerySel (p : Dom → Bool) (doc : Dom) : Option Dom := qsD p doc

mutual
/-- Search for the first descendant matching `b` that has an ancestor
matching `a` inside the scanned subtree (CSS descendant combinator `a b`,
resolved within the scope element's subtree). -/
def qsDescD (a b : Dom → Bool) (inA : Bool) : Dom → Option Dom
  | .txt _ => none
  | .el t i c at_ cs =>
      if inA && b (.el t i c at_ cs) then some (.el t i c at_ cs)
      else qsDescF a b (inA || a (.el t i c at_ cs)) cs
def qsDescF (a b : Dom → Bool) (inA : Bool) : DomForest → Option Dom
  | .nil => none
  | .cons d ds =>
      match qsDescD a b inA d with
      | some r => some r
      | none => qsDescF a b inA ds
end

/-- JS `el.querySelector('A B')` for a descendant-combinator selector. -/
def querySelDescInside (a b : Dom → Bool) : Dom → Option Dom
  | .txt _ => none
  | .el t i c at_ cs => qsDescF a b (a (.el t i c at_ cs)) cs

mutual
/-- The clone-and-strip primitive: remove every element descendant matching
`p` (whole subtree), keeping the root.  Models
`clone.querySelectorAll(sel).forEach(el => el.remove())` on a clone. -/
def stripD (p : Dom → Bool) : Dom → Dom
  | .txt s => .txt s
  | .el t i c a cs => .el t i c a (stripF p cs)
def stripF (p : Dom → Bool) : DomForest → DomForest
  | .nil => .nil
  | .cons (.txt s) ds => .cons (.txt s) (stripF p ds)
  | .cons (.el t i c a cs) ds =>
      if p (.el t i c a cs) then stripF p ds
      else .cons (stripD p (.el t i c a cs)) (stripF p ds)
end

mutual
/-- `querySelectorAll` with preorder positions: all matching nodes of the
subtree rooted at the given node (root included), where `n` is the root's
preorder number; returns the matches and the next free number. -/
def qsaD (p : Dom → Bool) : Dom → Nat → (List (Nat × Dom)) × Nat
  | .txt _, n => ([], n)
  | .el t i c a cs, n =>
      let r := qsaF p cs (n + 1)
      (if p (.el t i c a cs) then (n, .el t i c a cs) :: r.1 else r.1, r.2)
def qsaF (p : Dom → Bool) : DomForest → Nat → (List (Nat × Dom)) × Nat
  | .nil, n => ([], n)
  | .cons d ds, n =>
      let x := qsaD p d n
      let y := qsaF p ds x.2
      (x.1 ++ y.1, y.2)
end

/-- JS `document.querySelectorAll(sel)` with node identity as preorder
position. -/
def docQsa (p : Dom → Bool) (doc : Dom) : List (Nat × Dom) := (qsaD p doc 0).1

/-- JS `el.querySelectorAll(sel)`: strict descendants only. -/
def qsaInside (p : Dom → Bool) : Dom → List (Nat × Dom)
  | .txt _ => []
  | .el _ _ _ _ cs => (qsaF p cs 0).1

/-- JS `a || b` over element lookups. -/
def orQ (a b : Option Dom) : Option Dom :=
  match a with
  | some x => some x
  | none => b

/-- One extracted conversation turn, mirroring the JS record shape.  The
`element` back-reference is modelled by the node's preorder position; the
ChatGPT strategy's records carry no `order` property, modelled by `none`. -/
structure Msg where
  id : String
  role : String
  content : String
  fullContent : String
  pos : Nat
  timestamp : Nat
  order : Option Nat
  deriving Repr, DecidableEq

/-- The scan-invariant projection of a record (`id`, `role`, `content`,
`fullContent`): everything but the capture timestamp and bookkeeping. -/
def msgKey (m : Msg) : String × String × String × String :=
  (m.id, m.role, m.content, m.fullContent)

/-!
ChatGPT strategy (`HopperPlatform.chatgpt`), transcribed from the source:
candidates are `[data-message-author-role]` nodes inside `main`; content is
resolved by the cascade `.whitespace-pre-wrap` → `.markdown` → `.text-base`
→ (`[class*="message"]` or the element itself, raw text, no stripping);
the record is pushed without an `order` property.
-/

/-- Content extraction cascade of `chatgpt.detectMessages` for one
candidate element (source lines 55–86 of the ChatGPT strategy file),
including the final `replace(/\s+/g, ' ').trim()`. -/
def chatgptContent (el : Dom) : String :=
  let c1 :=
    match querySelInside (hasClassTok "whitespace-pre-wrap") el with
    | some w => if (jsTrim (domText w)).length > 0 then jsTrim (domText w) else ""
    | none => ""
  let c2 :=
    if c1 = "" then
      match querySelInside (hasClassTok "markdown") el with
      | some w => if (jsTrim (domText w)).length > 0 then jsTrim (domText w) else ""
      | none => ""
    else c1
  let c3 :=
    if c2 = "" then
      match querySelInside (hasClassTok "text-base") el with
      | some w => if (jsTrim (domText w)).length > 0 then jsTrim (domText w) else ""
      | none => ""
    else c2
  let c4 :=
    if c3 = "" then
      match querySelInside (classContains "message") el with
      | some mc => jsTrim (domText mc)
      | none => jsTrim (domText el)
    else c3
  normWs c4

/-- The per-candidate loop of `chatgpt.detectMessages`: `idx` is the
`forEach` index, `now` the capture time.  Skips candidates with a missing
or empty role attribute and candidates with empty normalized content; the
pushed record has no `order` property. -/
def chatgptFrom : List (Nat × Dom) → Nat → Nat → List Msg
  | [], _, _ => []
  | (pos, el) :: rest, idx, now =>
      let tail := chatgptFrom rest (idx + 1) now
      match el.getAttr "data-message-author-role" with
      | none => tail
      | some roleAttr =>
          if roleAttr = "" then tail
          else
            let content := chatgptContent el
            if content = "" then tail
            else
              { id := "msg-chatgpt-" ++ roleAttr ++ "-" ++ toString idx ++ "-" ++ contentHash content,
                role := roleAttr,
                content := jsTake 200 content,
                fullContent := content,
                pos := pos,
                timestamp := now,
                order := none } :: tail

/-- `chatgpt.detectMessages`: resolve `main` (returning `[]` when absent),
query `[data-message-author-role]` inside it, run the per-candidate loop. -/
def chatgptDetectMessages (doc : Dom) (now : Nat) : List Msg :=
  match docQuerySel (hasTag "main") doc with
  | none => []
  | some container =>
      chatgptFrom (qsaInside (fun d => hasAttr "data-message-author-role" d) container) 0 now

/-- `chatgpt.getContainer`: a single `document.querySelector('main')` with
no further fallback. -/
def chatgptGetContainer (doc : Dom) : Option Dom := docQuerySel (hasTag "main") doc

/-!
Qwen strategy (`HopperPlatform.qwen`): candidates are `div[id^="message-"]`
nodes of the whole document; after id-based filtering and class-based role
classification, content is resolved by per-role selector cascades whose
last resorts clone the subtree and strip interactive descendants; finally
the records are sorted by document position and `order` is reassigned.
-/

/-- The strip selector `'button, svg, .message-footer, [class*="button"],
[class*="footer"]'`. -/
def qwenStrip5 (d : Dom) : Bool :=
  hasTag "button" d || hasTag "svg" d || hasClassTok "message-footer" d ||
    classContains "button" d || classContains "footer" d

/-- The strip selector with `[class*="action"]` appended. -/
def qwenStrip6 (d : Dom) : Bool := qwenStrip5 d || classContains "action" d

/-- Candidate predicate `div[id^="message-"]`. -/
def qwenMsgPred (d : Dom) : Bool := hasTag "div" d && strStarts d.idAttr "message-"

/-- User-content selector cascade of `qwen.detectMessages` (the four
`querySelector` attempts before the clone-and-strip fallbacks). -/
def qwenUserContentSel (el : Dom) : Option Dom :=
  orQ (querySelDescInside (hasClassTok "user-message-text-content")
        (fun d => hasTag "p" d && hasClassTok "user-message-content" d &&
          hasClassTok "whitespace-pre-wrap" d) el)
    (orQ (querySelInside
        (fun d => hasTag "p" d && hasClassTok "user-message-content" d &&
          hasClassTok "whitespace-pre-wrap" d) el)
      (orQ (querySelInside (fun d => hasTag "p" d && hasClassTok "user-message-content" d) el)
        (querySelInside (classContains "user-message-content") el)))

/-- User content of a Qwen candidate: the cascade above, then the
`.user-message-text-content` clone-and-strip fallback, then the whole
message element clone-and-strip fallback. -/
def qwenUserContent (el : Dom) : String :=
  match qwenUserContentSel el with
  | some ce => jsTrim (domText ce)
  | none =>
      match querySelInside (hasClassTok "user-message-text-content") el with
      | some tc => jsTrim (domText (stripD qwenStrip5 tc))
      | none => jsTrim (domText (stripD qwenStrip6 el))

/-- Assistant content-container selector cascade of `qwen.detectMessages`. -/
def qwenAssistantSel (el : Dom) : Option Dom :=
  orQ (querySelInside
        (fun d => idIs "response-content-container" d && hasClassTok "markdown-content-container" d) el)
    (orQ (querySelInside
        (fun d => hasClassTok "markdown-content-container" d && hasClassTok "markdown-prose" d) el)
      (orQ (querySelInside (hasClassTok "text-response-render-container") el)
        (querySelInside (hasClassTok "markdown-content-container") el)))

/-- Assistant content of a Qwen candidate: a found content container is
cloned and stripped (with `[class*="action"]`), else `.response-message-body`
is cloned and stripped (without it), else the whole element is. -/
def qwenAssistantContent (el : Dom) : String :=
  match qwenAssistantSel el with
  | some cc => jsTrim (domText (stripD qwenStrip6 cc))
  | none =>
      match querySelInside (hasClassTok "response-message-body") el with
      | some rb => jsTrim (domText (stripD qwenStrip5 rb))
      | none => jsTrim (domText (stripD qwenStrip6 el))

/-- `msgEl.querySelector('.response-message-body, .markdown-content-container,
.text-response-render-container') !== null`. -/
def qwenHasResponseContent (el : Dom) : Bool :=
  (querySelInside
    (fun d => hasClassTok "response-message-body" d || hasClassTok "markdown-content-container" d ||
      hasClassTok "text-response-render-container" d) el).isSome

/-- The per-candidate loop of `qwen.detectMessages`: `seen` is the set of
already-processed ids (insertion order irrelevant, only membership is
used), `order` the running counter used both in the generated id and the
pre-sort `order` field. -/
def qwenFrom : List (Nat × Dom) → List String → Nat → Nat → List Msg
  | [], _, _, _ => []
  | (pos, el) :: rest, seen, order, now =>
      let msgId := el.idAttr
      if msgId = "" || seen.contains msgId then qwenFrom rest seen order now
      else if strContains msgId "input-container" || strContains msgId "button-" ||
          strContains msgId "language" then qwenFrom rest seen order now
      else
        let hasUserClass := (classWords el.className).contains "user-message"
        let hasResponseClass := (classWords el.className).contains "response-meesage-container" ||
          (classWords el.className).contains "response-message-container"
        let isUser := hasUserClass
        let isAssistant := hasResponseClass || qwenHasResponseContent el
        if !isUser && !isAssistant then qwenFrom rest seen order now
        else
          let seen' := msgId :: seen
          let role := if isUser then "user" else "assistant"
          let content := if isUser then qwenUserContent el else qwenAssistantContent el
          if content = "" then qwenFrom rest seen' order now
          else
            { id := "msg-qwen-" ++ role ++ "-" ++ toString order ++ "-" ++ contentHash content,
              role := role,
              content := jsTake 200 content,
              fullContent := content,
              pos := pos,
              timestamp := now,
              order := some order } :: qwenFrom rest seen' (order + 1) now

/-- The chronological sort of `qwen.detectMessages`: `Array.prototype.sort`
with the `compareDocumentPosition` comparator, i.e. ascending document
position. -/
def sortByPos (l : List Msg) : List Msg := l.insertionSort (fun a b => a.pos ≤ b.pos)

/-- The post-sort `order` reassignment (`messages.forEach((msg, idx) =>
msg.order = idx)`). -/
def assignOrders : Nat → List Msg → List Msg
  | _, [] => []
  | n, m :: ms => { m with order := some n } :: assignOrders (n + 1) ms

/-- `qwen.detectMessages` from an explicit candidate list (the list
`document.querySelectorAll('div[id^="message-"]')` yields, in whatever
order the matcher discovered them). -/
def qwenDetectFrom (cands : List (Nat × Dom)) (now : Nat) : List Msg :=
  assignOrders 0 (sortByPos (qwenFrom cands [] 0 now))

/-- `qwen.detectMessages` on a whole document.  The container cascade the
source resolves first (its lines 109–118) is dead for extraction — the
candidate query runs against `document` — and is modelled separately as
`qwenGetContainer`. -/
def qwenDetectMessages (doc : Dom) (now : Nat) : List Msg :=
  qwenDetectFrom (docQsa qwenMsgPred doc) now

/-- `qwen.getContainer`: `.chat-messages-container` →
`[class*="chat-messages"]` → `main` → `document.body`. -/
def qwenGetContainer (doc : Dom) : Option Dom :=
  orQ (docQuerySel (hasClassTok "chat-messages-container") doc)
    (orQ (docQuerySel (classContains "chat-messages") doc)
      (orQ (docQuerySel (hasTag "main") doc)
        (docQuerySel (hasTag "body") doc)))

/-!
Claude strategy (`HopperPlatform.claude`).  User nodes are found via
`[data-testid="user-message"]` (with fallbacks); for each user node the
strategy locates assistant blocks by structural ascent (heuristic A) and a
spatial fallback (heuristic B), both of which read layout geometry
(`offsetHeight`, `getBoundingClientRect`).  Those two heuristics and the
rect-based sort are abstracted here as the per-user input `blocks` — the
matched blocks in visual order, each given by its node position and
`textContent`.  Everything from block texts to the emitted record (the
aggregation, deduplication, disclaimer handling and final validation) is
embedded in full below.
-/

/-- Case-insensitive literal matcher: consume `pat` (given lowercase) from
the head of the input, returning the rest. -/
def matchLit : List Char → List Char → Option (List Char)
  | [], rest => some rest
  | _ :: _, [] => none
  | p :: ps, c :: cs => if c.toLower = p then matchLit ps cs else none

/-- Consume one optional literal character (regex `x?`, greedy). -/
def matchOpt (x : Char) : List Char → List Char
  | [] => []
  | c :: cs => if c.toLower = x then cs else c :: cs

/-- Regex `\s*` (greedy). -/
def skipWs (l : List Char) : List Char := l.dropWhile isWsChar

/-- Matcher for `/claude can make mistakes\.?\s*please double-check
responses\.?/i` at the current position: returns the rest of the input
after the match. -/
def p1Match (l : List Char) : Option (List Char) :=
  match matchLit "claude can make mistakes".toList l with
  | none => none
  | some r1 =>
      match matchLit "please double-check responses".toList (skipWs (matchOpt '.' r1)) with
      | none => none
      | some r2 => some (matchOpt '.' r2)

/-- Matcher for `/pondering,?\s*stand by\.\.\./i` at the current position. -/
def p2Match (l : List Char) : Option (List Char) :=
  match matchLit "pondering".toList l with
  | none => none
  | some r1 => matchLit "stand by...".toList (skipWs (matchOpt ',' r1))

/-- Matcher for `/pondering,?\s*stand by/i` at the current position. -/
def p4Match (l : List Char) : Option (List Char) :=
  match matchLit "pondering".toList l with
  | none => none
  | some r1 => matchLit "stand by".toList (skipWs (matchOpt ',' r1))

/-- Global regex replacement with the empty string: at every position try
the matcher, drop the matched span, else keep the character.  Fuel is the
input length (each step consumes at least one character). -/
def replaceAllGo (m : List Char → Option (List Char)) : Nat → List Char → List Char
  | _, [] => []
  | 0, l => l
  | fuel + 1, c :: cs =>
      match m (c :: cs) with
      | some rest =>
          if rest.length < cs.length + 1 then replaceAllGo m fuel rest
          else c :: replaceAllGo m fuel cs
      | none => c :: replaceAllGo m fuel cs

/-- JS `s.replace(pat, '')` for a global pattern given by a matcher. -/
def replaceAllM (m : List Char → Option (List Char)) (l : List Char) : List Char :=
  replaceAllGo m l.length l

/-- JS `s.replace(/^phrase/i, '')`: strip one anchored occurrence. -/
def stripAnchored (phrase : String) (l : List Char) : List Char :=
  match matchLit phrase.toList l with
  | some rest => rest
  | none => l

/-- The lengths of all matches of a global pattern, scanning left to right
(JS `s.match(pat)` for a `g` pattern, mapped through `.length`). -/
def allMatchLens (m : List Char → Option (List Char)) : Nat → List Char → List Nat
  | _, [] => []
  | 0, _ => []
  | fuel + 1, c :: cs =>
      match m (c :: cs) with
      | some rest =>
          if rest.length < cs.length + 1 then
            (cs.length + 1 - rest.length) :: allMatchLens m fuel rest
          else allMatchLens m fuel cs
      | none => allMatchLens m fuel cs

/-- The disclaimer dominance test of the final validation for one global
pattern: at least one match, matched length at least 80% of the content
(`5*sum ≥ 4*len` in exact arithmetic) and content under 150 characters. -/
def globalDisclaimerCheck (m : List Char → Option (List Char)) (s : String) : Bool :=
  let lens := allMatchLens m s.toList.length s.toList
  !lens.isEmpty && decide (5 * lens.sum ≥ 4 * s.length) && decide (s.length < 150)

/-- The disclaimer dominance test for one anchored literal pattern
(`/^phrase/i`, whose single match has the literal's length). -/
def anchoredDisclaimerCheck (phrase : String) (s : String) : Bool :=
  match matchLit phrase.toList s.toList with
  | some _ => decide (5 * phrase.length ≥ 4 * s.length) && decide (s.length < 150)
  | none => false

/-- `isOnlyDisclaimer` of the final validation: some disclaimer pattern
dominates the combined content. -/
def isOnlyDisclaimer (s : String) : Bool :=
  globalDisclaimerCheck p1Match s || globalDisclaimerCheck p2Match s ||
    anchoredDisclaimerCheck "claude can make mistakes" s ||
    anchoredDisclaimerCheck "please double-check" s

/-- Per-block disclaimer cleaning: each of the four patterns is replaced by
the empty string and the text re-trimmed, in pattern order. -/
def cleanDisclaimers (t : String) : String :=
  let c1 := jsTrim (replaceAllM p1Match t.toList).asString
  let c2 := jsTrim (replaceAllM p2Match c1.toList).asString
  let c3 := jsTrim (stripAnchored "claude can make mistakes" c2.toList).asString
  jsTrim (stripAnchored "please double-check" c3.toList).asString

/-- Remove the first list element satisfying the test (JS
`findIndex` + `splice`, a no-op when nothing matches). -/
def removeFirstBy (p : String → Bool) : List String → List String
  | [] => []
  | x :: xs => if p x then xs else x :: removeFirstBy p xs

/-- Inner scan of the block deduplication loop over the already-seen
normalized texts in insertion order: `some none` means the current block is
a short substring of a seen one (drop it), `some (some v)` means seen text
`v` is a short substring of the current one (evict it), `none` means no
interaction. -/
def dedupScan (curN : String) : List String → Option (Option String)
  | [] => none
  | s :: rest =>
      if decide (5 * curN.length < 4 * s.length) && strContains s curN then some none
      else if decide (5 * s.length < 4 * curN.length) && strContains curN s then some (some s)
      else dedupScan curN rest

/-- The block deduplication loop (`uniqueTexts` / `seenContent`): `uniq`
accumulates kept original-case texts in order, `seen` their lowercase forms
in insertion order. -/
def dedupGo : List String → List String → List String → List String
  | [], uniq, _ => uniq
  | t :: rest, uniq, seen =>
      let cur := jsTrim t
      if cur = "" then dedupGo rest uniq seen
      else
        let curN := lowerStr cur
        if seen.contains curN then dedupGo rest uniq seen
        else
          match dedupScan curN seen with
          | some none => dedupGo rest uniq seen
          | some (some victim) =>
              dedupGo rest (removeFirstBy (fun u => lowerStr (jsTrim u) = victim) uniq ++ [cur])
                (removeFirstBy (fun s => s = victim) seen ++ [curN])
          | none => dedupGo rest (uniq ++ [cur]) (seen ++ [curN])

/-- Regex `[.!?]` sentence terminators. -/
def isTermChar (c : Char) : Bool := c = '.' || c = '!' || c = '?'

/-- JS `s.split(/[.!?]\s+/)`: cut at each terminator followed by
whitespace, consuming the terminator and the whitespace run. -/
def splitSentGo : Nat → List Char → List Char → List String
  | _, acc, [] => [acc.reverse.asString]
  | 0, acc, rest => [(acc.reverse ++ rest).asString]
  | fuel + 1, acc, c :: cs =>
      if isTermChar c then
        match cs with
        | d :: _ =>
            if isWsChar d then acc.reverse.asString :: splitSentGo fuel [] (cs.dropWhile isWsChar)
            else splitSentGo fuel (c :: acc) cs
        | [] => splitSentGo fuel (c :: acc) cs
      else splitSentGo fuel (c :: acc) cs

/-- The sentence list of the sentence-level deduplication step. -/
def splitSentences (s : String) : List String := splitSentGo s.toList.length [] s.toList

/-- Sentence-level deduplication: a sentence is dropped when the first 50
characters of its trimmed lowercase form were already seen. -/
def sentDedupGo : List String → List String → List String → List String
  | [], uniq, _ => uniq
  | s :: rest, uniq, seenKeys =>
      let key := jsTake 50 (lowerStr (jsTrim s))
      if seenKeys.contains key then sentDedupGo rest uniq seenKeys
      else sentDedupGo rest (uniq ++ [jsTrim s]) (seenKeys ++ [key])

/-- The combined assistant content assembled from the matched blocks'
`textContent` values (in visual order): trim and drop empties, clean
disclaimers per block (falling back to the uncleaned texts when cleaning
eliminates everything), deduplicate substring blocks, force-keep the first
non-empty block when deduplication eliminated everything, join with single
spaces and collapse whitespace, then apply sentence-level deduplication
kept only when it retains at least half the length. -/
def claudeCombined (blocks : List String) : String :=
  let blockTexts := (blocks.map jsTrim).filter (fun t => t.length > 0)
  let cleaned := (blockTexts.map cleanDisclaimers).filter (fun t => t.length > 0)
  let blockTextsToUse := if cleaned.length > 0 then cleaned else blockTexts
  let uniq0 := dedupGo blockTextsToUse [] []
  let uniq :=
    if uniq0.isEmpty && !blockTextsToUse.isEmpty then
      match blockTextsToUse.find? (fun b => (jsTrim b).length > 0) with
      | some fb => [jsTrim fb]
      | none => []
    else uniq0
  let combined0 := normWs (joinWith " " uniq)
  let sentences := (splitSentences combined0).filter (fun s => (jsTrim s).length > 0)
  if sentences.length > 1 then
    let dedup := jsTrim (joinWith ". " (sentDedupGo sentences [] []))
    if dedup.length > 0 && decide (2 * dedup.length ≥ combined0.length) then dedup else combined0
  else combined0

/-- The `thinkingPatterns` dominance test (`match[0].length ≥ 0.7·len`,
modelled as `10*matchLen ≥ 7*len`, or `len < 100`). -/
def thinkDominates (matchLen : Option Nat) (len : Nat) : Bool :=
  match matchLen with
  | none => false
  | some ml => decide (10 * ml ≥ 7 * len) || decide (len < 100)

/-- Length of the match of an anchored matcher at the start of the string. -/
def anchoredMatchLen (m : List Char → Option (List Char)) (s : String) : Option Nat :=
  match m s.toList with
  | some rest => some (s.toList.length - rest.length)
  | none => none

/-- Length of the first match of an unanchored pattern
(`/pondering,?\s*stand by/i`). -/
def firstMatchLenGo (m : List Char → Option (List Char)) : Nat → List Char → Option Nat
  | _, [] => none
  | 0, _ => none
  | fuel + 1, c :: cs =>
      match m (c :: cs) with
      | some rest => some (cs.length + 1 - rest.length)
      | none => firstMatchLenGo m fuel cs

/-- `isThinkingOnly` of the final validation: one of the in-progress
patterns dominates the combined content.  All patterns but
`/pondering,?\s*stand by/i` are anchored literals. -/
def isThinkingOnly (s : String) : Bool :=
  let n := s.length
  thinkDominates (anchoredMatchLen p2Match s) n ||
    thinkDominates (anchoredMatchLen (matchLit "thinking...".toList) s) n ||
    thinkDominates (anchoredMatchLen (matchLit "generating...".toList) s) n ||
    thinkDominates (firstMatchLenGo p4Match s.toList.length s.toList) n ||
    thinkDominates (anchoredMatchLen (matchLit "stand by".toList) s) n ||
    thinkDominates (anchoredMatchLen (matchLit "searching".toList) s) n ||
    thinkDominates (anchoredMatchLen (matchLit "web searching".toList) s) n ||
    thinkDominates (anchoredMatchLen (matchLit "browsing".toList) s) n ||
    thinkDominates (anchoredMatchLen (matchLit "checking".toList) s) n ||
    thinkDominates (anchoredMatchLen (matchLit "looking up".toList) s) n ||
    thinkDominates (anchoredMatchLen (matchLit "running".toList) s) n ||
    thinkDominates (anchoredMatchLen (matchLit "analyzing".toList) s) n ||
    thinkDominates (anchoredMatchLen (matchLit "reading".toList) s) n

/-- `combinedContent.trim().endsWith('...') && combinedContent.length < 200`. -/
def endsWithEllipsis (s : String) : Bool := strEnds (jsTrim s) "..." && decide (s.length < 200)

/-- The assembled assistant turn for one user node, or `none` when the
final validation rejects it: content shorter than 10 characters, dominated
by a disclaimer, dominated by an in-progress phrase, or trailing an
ellipsis while short. -/
def claudeAggregate (blocks : List String) : Option String :=
  let c := claudeCombined blocks
  if decide (10 ≤ c.length) && !isOnlyDisclaimer c && !isThinkingOnly c && !endsWithEllipsis c
  then some c else none

/-- One user node of the Claude strategy together with the assistant
blocks its two discovery heuristics matched, in visual order (position and
`textContent` each). -/
structure ClaudeUser where
  pos : Nat
  text : String
  blocks : List (Nat × String)
  deriving Repr, DecidableEq

/-- The records one user node contributes (with the next `messageOrder`
value): the user record when its trimmed, collapsed text is non-empty, then
the assistant record when the matched blocks aggregate to validated content
(anchored to the first block). -/
def claudeStep (u : ClaudeUser) (uidx ord now : Nat) : List Msg × Nat :=
  let userContent := collapseWs (jsTrim u.text)
  let userPart : List Msg :=
    if userContent.length ≥ 1 then
      [{ id := "msg-claude-user-" ++ toString uidx ++ "-" ++ contentHash userContent,
         role := "user",
         content := jsTake 200 userContent,
         fullContent := userContent,
         pos := u.pos,
         timestamp := now,
         order := some ord }]
    else []
  let ord1 := if userContent.length ≥ 1 then ord + 1 else ord
  match u.blocks with
  | [] => (userPart, ord1)
  | b :: bs =>
      match claudeAggregate ((b :: bs).map Prod.snd) with
      | some c =>
          (userPart ++
            [{ id := "msg-claude-assistant-" ++ toString uidx ++ "-" ++ contentHash c,
               role := "assistant",
               content := jsTake 200 c,
               fullContent := c,
               pos := b.1,
               timestamp := now,
               order := some ord1 }], ord1 + 1)
      | none => (userPart, ord1)

/-- The per-user loop of `claude.detectMessages`: fold `claudeStep` over
the user nodes, threading `userIndex` and `messageOrder`. -/
def claudeDetectFrom : List ClaudeUser → Nat → Nat → Nat → List Msg
  | [], _, _, _ => []
  | u :: rest, uidx, ord, now =>
      (claudeStep u uidx ord now).1 ++
        claudeDetectFrom rest (uidx + 1) (claudeStep u uidx ord now).2 now

/-- `claude.getContainer`: `[data-testid="conversation-turn-list"]` →
`main` → `document.body`. -/
def claudeGetContainer (doc : Dom) : Option Dom :=
  orQ (docQuerySel (attrEq "data-testid" "conversation-turn-list") doc)
    (orQ (docQuerySel (hasTag "main") doc)
      (docQuerySel (hasTag "body") doc))

/-!
DeepSeek strategy (`HopperPlatform.deepseek`).  Candidates come from a
selector cascade over the scroll container and the document; they are
sorted by document position, then classified: a `.fbb737a4` descendant
marks a user message, a `.ds-markdown` descendant or an assistant-signature
ancestor (via `closest`, which inspects nodes outside the candidate's own
subtree and is therefore an input flag here) or a markdown class signature
marks an assistant message; others are skipped.
-/

/-- One DeepSeek candidate: document position, the element subtree, and the
result of the `closest('._4f9bf79, [class*="_4f9bf79"], ._43c05b5,
[class*="_43c05b5"]')` ancestor probe. -/
structure DSElem where
  pos : Nat
  dom : Dom
  closestAssist : Bool
  deriving Repr, DecidableEq

/-- Role and raw content of one DeepSeek candidate (`null` role means the
candidate is skipped). -/
def deepseekRoleContent (e : DSElem) : Option (String × String) :=
  match orQ (querySelInside (hasClassTok "fbb737a4") e.dom)
      (querySelInside (classContains "fbb737a4") e.dom) with
  | some uc => some ("user", jsTrim (domText uc))
  | none =>
      match orQ (querySelInside (hasClassTok "ds-markdown") e.dom)
          (querySelInside (classContains "ds-markdown") e.dom) with
      | some md => some ("assistant", jsTrim (domText md))
      | none =>
          if e.closestAssist then some ("assistant", jsTrim (domText e.dom))
          else if strContains e.dom.className "ds-markdown" ||
              (querySelInside (classContains "markdown") e.dom).isSome then
            some ("assistant", jsTrim (domText e.dom))
          else none

/-- The per-candidate loop of `deepseek.detectMessages` over the sorted
candidates: `idx` is the `forEach` index (used in the generated id), `ord`
the emission counter (used in `order`). -/
def deepseekFrom : List DSElem → Nat → Nat → Nat → List Msg
  | [], _, _, _ => []
  | e :: rest, idx, ord, now =>
      match deepseekRoleContent e with
      | none => deepseekFrom rest (idx + 1) ord now
      | some (role, content0) =>
          let content := if content0 = "" then content0 else normWs content0
          if content = "" then deepseekFrom rest (idx + 1) ord now
          else
            { id := "msg-deepseek-" ++ role ++ "-" ++ toString idx ++ "-" ++ contentHash content,
              role := role,
              content := jsTake 200 content,
              fullContent := content,
              pos := e.pos,
              timestamp := now,
              order := some ord } :: deepseekFrom rest (idx + 1) (ord + 1) now

/-- The chronological sort of `deepseek.detectMessages`
(`compareDocumentPosition` comparator: ascending document position). -/
def dsSort (els : List DSElem) : List DSElem := els.insertionSort (fun a b => a.pos ≤ b.pos)

/-- `deepseek.detectMessages` from the aggregated candidate list. -/
def deepseekDetectFrom (els : List DSElem) (now : Nat) : List Msg :=
  deepseekFrom (dsSort els) 0 0 now

/-- `deepseek.getContainer`: `.ds-scroll-area` → `[class*="ds-scroll-area"]`
→ `[class*="_0f72b0b"]` → the lowest-common-ancestor traversal (which walks
`parentElement` chains and is abstracted as the input `ancestorStep`) →
`main` → `document.body`. -/
def deepseekGetContainer (doc : Dom) (ancestorStep : Option Dom) : Option Dom :=
  orQ (docQuerySel (hasClassTok "ds-scroll-area") doc)
    (orQ (docQuerySel (classContains "ds-scroll-area") doc)
      (orQ (docQuerySel (classContains "_0f72b0b") doc)
        (orQ ancestorStep
          (orQ (docQuerySel (hasTag "main") doc)
            (docQuerySel (hasTag "body") doc)))))

/-!
The capability surface of the four strategy objects: which of them define
the streaming-detection operation and the two Scan Scheduler timing
constants (`getDebounceTime` / `getStreamingWaitTime`), and with which
values.  `none` records that the strategy object has no such property.
-/

/-- The capability-contract surface of one platform strategy object. -/
structure PlatformCaps where
  hasIsStreaming : Bool
  debounceMs : Option Int
  settleMs : Option Int
  deriving Repr, DecidableEq

/-- The ChatGPT strategy object defines `isActive`, `detectMessages`,
`getContainer`, `getMessageSelector` and `normalizeUrl` only: no
`isStreaming`, no timing constants. -/
def chatgptCaps : PlatformCaps := ⟨false, none, none⟩

/-- Qwen: `isStreaming` present, 400 ms debounce, 1500 ms settle. -/
def qwenCaps : PlatformCaps := ⟨true, some 400, some 1500⟩

/-- Claude: `isStreaming` present, 1000 ms debounce, 3000 ms settle. -/
def claudeCaps : PlatformCaps := ⟨true, some 1000, some 3000⟩

/-- DeepSeek: `isStreaming` present, 300 ms debounce, 1500 ms settle. -/
def deepseekCaps : PlatformCaps := ⟨true, some 300, some 1500⟩

/-- Build a `DomForest` from a list of nodes. -/
def dF (l : List Dom) : DomForest := l.foldr .cons .nil

/-- The comparator relation of the document-position sorts is total. -/
instance : IsTotal Msg (fun a b => a.pos ≤ b.pos) := ⟨fun a b => Nat.le_total a.pos b.pos⟩

/-- The comparator relation of the document-position sorts is transitive. -/
instance : IsTrans Msg (fun a b => a.pos ≤ b.pos) := ⟨fun _ _ _ => Nat.le_trans⟩

/-- A ChatGPT conversation document with a single user message. -/
def exC1Doc : Dom :=
  .el "html" "" "" [] (dF [.el "body" "" "" [] (dF [.el "main" "" "" [] (dF
    [.el "div" "" "" [("data-message-author-role", "user")] (dF [.txt "Hi there"])])])])

/-- A scrambled Qwen candidate list: document positions 9, 2, 5 in
discovery order, one user message each. -/
def exC1Cands : List (Nat × Dom) :=
  [(9, .el "div" "message-a" "user-message" [] (dF
      [.el "p" "" "user-message-content" [] (dF [.txt "third"])])),
   (2, .el "div" "message-b" "user-message" [] (dF
      [.el "p" "" "user-message-content" [] (dF [.txt "first"])])),
   (5, .el "div" "message-c" "user-message" [] (dF
      [.el "p" "" "user-message-content" [] (dF [.txt "second"])]))]

/-- A ChatGPT candidate whose only specific content containers are absent
and which contains a button with visible text. -/
def exC2Cand : Dom :=
  .el "div" "" "" [("data-message-author-role", "user")] (dF
    [.txt "Hello ", .el "button" "" "" [] (dF [.txt "Click me"])])

/-- A document holding `exC2Cand` inside `main`. -/
def exC2Doc : Dom :=
  .el "html" "" "" [] (dF [.el "body" "" "" [] (dF [.el "main" "" "" [] (dF [exC2Cand])])])

/-- A Qwen user candidate with no content-container selectors and a footer
button, exercising the clone-and-strip last resort. -/
def exC2QwenCand : Dom :=
  .el "div" "message-7" "user-message" [] (dF
    [.txt "Hola ", .el "button" "" "copy-button" [] (dF [.txt "Copy"])])

/-- A document with a `body` but no `main` and no chat container. -/
def exC4Doc : Dom :=
  .el "html" "" "" [] (dF [.el "head" "" "" [] (dF []), .el "body" "" "" [] (dF [.txt "empty"])])

/-- A Qwen document whose user message text contains an interior run of
whitespace (`"hi\n\nthere"`). -/
def exC6Doc : Dom :=
  .el "html" "" "" [] (dF [.el "body" "" "" [] (dF
    [.el "div" "message-1" "user-message" [] (dF
      [.el "p" "" "user-message-content" [] (dF [.txt "hi\n\nthere"])])])])

/-- A ChatGPT document whose message carries
`data-message-author-role="system"`. -/
def exC9Doc : Dom :=
  .el "html" "" "" [] (dF [.el "body" "" "" [] (dF [.el "main" "" "" [] (dF
    [.el "div" "" "" [("data-message-author-role", "system")] (dF [.txt "System prompt"])])])])

/-- A Qwen document with one ordinary user message, used to instantiate
universally quantified role/content invariants. -/
def exQwenDoc : Dom :=
  .el "html" "" "" [] (dF [.el "body" "" "" [] (dF
    [.el "div" "message-1" "user-message" [] (dF
      [.el "p" "" "user-message-content" [] (dF [.txt "hello"])])])])

/-- The disclaimer string exactly as the specification quotes it. -/
def specDisclaimer : String := "Model can make mistakes. Please double-check responses."

/-- The disclaimer string the source's patterns actually target. -/
def codeDisclaimer : String := "Claude can make mistakes. Please double-check responses."

/-- Set a record's capture timestamp (used to state that re-scans differ
only in the timestamp). -/
def setTime (n : Nat) (m : Msg) : Msg := { m with timestamp := n }

/-- Every whitespace character of the list is a plain space. -/
def wsSp (l : List Char) : Bool := l.all (fun c => !isWsChar c || c = ' ')

/-- No two adjacent whitespace characters. -/
def noAdjWs : List Char → Bool
  | [] => true
  | [_] => true
  | c :: d :: cs => !(isWsChar c && isWsChar d) && noAdjWs (d :: cs)

/-- The list does not start with whitespace. -/
def headNotWs : List Char → Bool
  | [] => true
  | c :: _ => !isWsChar c

/-- The list does not end with whitespace. -/
def lastNotWs : List Char → Bool
  | [] => true
  | [c] => !isWsChar c
  | _ :: d :: cs => lastNotWs (d :: cs)

/-- The record the Qwen strategy extracts from `exQwenDoc` at time 0. -/
def exQwenRec : Msg :=
  ⟨"msg-qwen-user-0-hello", "user", "hello", "hello", 2, 0, some 0⟩

/-- The record the ChatGPT strategy extracts from `exC1Doc` at time 0. -/
def exChatgptRec : Msg :=
  ⟨"msg-chatgpt-user-0-Hithere", "user", "Hi there", "Hi there", 0, 0, none⟩

/-- A DeepSeek assistant candidate with a markdown content container. -/
def exDSElem : DSElem :=
  ⟨0, .el "div" "" "ds-message" [] (dF [.el "div" "" "ds-markdown" [] (dF [.txt "Sure."])]), false⟩

/-- The record the DeepSeek strategy extracts from `[exDSElem]` at time 0. -/
def exDSRec : Msg :=
  ⟨"msg-deepseek-assistant-0-Sure.", "assistant", "Sure.", "Sure.", 0, 0, some 0⟩

/-- The user record the Claude strategy extracts for the user node
`⟨0, "Hi!", [(1, "short")]⟩` at time 0. -/
def exClaudeURec : Msg :=
  ⟨"msg-claude-user-0-Hi!", "user", "Hi!", "Hi!", 0, 0, some 0⟩

/-!
Support lemmas: shape of the whitespace normalizers, needed to show the
emitted contents are fixed points of trimming / normalization.
-/

theorem headNotWs_dropWhile (l : List Char) : headNotWs (l.dropWhile isWsChar) = true := by
  induction l with
  | nil => rfl
  | cons c cs ih =>
      by_cases h : isWsChar c = true
      · simpa [List.dropWhile_cons, h] using ih
      · simp [List.dropWhile_cons, h, headNotWs]

theorem noAdjWs_tail (c : Char) (l : List Char) (h : noAdjWs (c :: l) = true) :
    noAdjWs l = true := by
  cases l with
  | nil => rfl
  | cons d ds => simp [noAdjWs] at h; exact h.2

theorem noAdjWs_dropWhile (l : List Char) (h : noAdjWs l = true) :
    noAdjWs (l.dropWhile isWsChar) = true := by
  induction l with
  | nil => exact h
  | cons c cs ih =>
      by_cases hc : isWsChar c = true
      · simpa [List.dropWhile_cons, hc] using ih (noAdjWs_tail c cs h)
      · simpa [List.dropWhile_cons, hc] using h

theorem wsSp_dropWhile (l : List Char) (h : wsSp l = true) :
    wsSp (l.dropWhile isWsChar) = true := by
  induction l with
  | nil => exact h
  | cons c cs ih =>
      simp only [wsSp, List.all_cons, Bool.and_eq_true] at h
      by_cases hc : isWsChar c = true
      · simpa [List.dropWhile_cons, hc] using ih h.2
      · simpa [List.dropWhile_cons, hc, wsSp, List.all_cons] using h

theorem dropEndWs_head (c : Char) (cs : List Char) :
    dropEndWs (c :: cs) = [] ∨ ∃ t, dropEndWs (c :: cs) = c :: t := by
  cases h : dropEndWs cs with
  | nil =>
      by_cases hc : isWsChar c = true
      · exact Or.inl (by simp [dropEndWs, h, hc])
      · exact Or.inr ⟨[], by simp [dropEndWs, h, hc]⟩
  | cons d ds => exact Or.inr ⟨d :: ds, by simp [dropEndWs, h]⟩

theorem lastNotWs_dropEndWs (l : List Char) : lastNotWs (dropEndWs l) = true := by
  induction l with
  | nil => rfl
  | cons c cs ih =>
      cases h : dropEndWs cs with
      | nil =>
          by_cases hc : isWsChar c = true
          · simp [dropEndWs, h, hc, lastNotWs]
          · simp [dropEndWs, h, hc, lastNotWs]
      | cons d ds =>
          rw [h] at ih
          simp [dropEndWs, h, lastNotWs, ih]

theorem headNotWs_dropEndWs (l : List Char) (h : headNotWs l = true) :
    headNotWs (dropEndWs l) = true := by
  cases l with
  | nil => rfl
  | cons c cs =>
      rcases dropEndWs_head c cs with h1 | ⟨t, h1⟩
      · simp [h1, headNotWs]
      · simp only [headNotWs] at h
        simp [h1, headNotWs, h]

theorem dropEndWs_cons_of (c : Char) {cs : List Char} {d : Char} {ds : List Char}
    (h : dropEndWs cs = d :: ds) : dropEndWs (c :: cs) = c :: d :: ds := by
  simp only [dropEndWs, h]

theorem noAdjWs_dropEndWs (l : List Char) (h : noAdjWs l = true) :
    noAdjWs (dropEndWs l) = true := by
  induction l with
  | nil => rfl
  | cons c cs ih =>
      cases hcs : dropEndWs cs with
      | nil =>
          by_cases hc : isWsChar c = true
          · simp [dropEndWs, hcs, hc, noAdjWs]
          · simp [dropEndWs, hcs, hc, noAdjWs]
      | cons d ds =>
          have ih' := ih (noAdjWs_tail c cs h)
          rw [hcs] at ih'
          rw [dropEndWs_cons_of c hcs]
          cases cs with
          | nil => simp [dropEndWs] at hcs
          | cons e es =>
              rcases dropEndWs_head e es with h2 | ⟨t, h2⟩
              · rw [h2] at hcs; exact absurd hcs (by simp)
              · rw [h2] at hcs
                injection hcs with hde _
                simp only [noAdjWs, Bool.and_eq_true] at h ⊢
                exact ⟨hde ▸ h.1, ih'⟩

theorem wsSp_dropEndWs (l : List Char) (h : wsSp l = true) :
    wsSp (dropEndWs l) = true := by
  induction l with
  | nil => rfl
  | cons c cs ih =>
      simp only [wsSp, List.all_cons, Bool.and_eq_true] at h
      have ih' := ih h.2
      cases hcs : dropEndWs cs with
      | nil =>
          by_cases hc : isWsChar c = true
          · simp [dropEndWs, hcs, hc, wsSp]
          · simp [dropEndWs, hcs, hc, wsSp, List.all_cons, h.1]
      | cons d ds =>
          rw [hcs] at ih'
          rw [dropEndWs_cons_of c hcs]
          simp only [wsSp, List.all_cons, Bool.and_eq_true] at ih' ⊢
          exact ⟨h.1, ih'⟩

theorem wsSp_tail (c : Char) (l : List Char) (h : wsSp (c :: l) = true) : wsSp l = true := by
  simp only [wsSp, List.all_cons, Bool.and_eq_true] at h
  exact h.2

theorem lastNotWs_tail (c : Char) (l : List Char) (h : lastNotWs (c :: l) = true) :
    lastNotWs l = true := by
  cases l with
  | nil => rfl
  | cons d ds => simpa [lastNotWs] using h

theorem collapseGo_headNotWs (l : List Char) : headNotWs (collapseGo true l) = true := by
  induction l with
  | nil => rfl
  | cons c cs ih =>
      by_cases hc : isWsChar c = true
      · simpa [collapseGo, hc] using ih
      · simp [collapseGo, hc, headNotWs]

theorem collapseGo_wsSp (l : List Char) : ∀ b, wsSp (collapseGo b l) = true := by
  induction l with
  | nil => intro b; rfl
  | cons c cs ih =>
      intro b
      by_cases hc : isWsChar c = true
      · cases b with
        | true => simpa [collapseGo, hc] using ih true
        | false =>
            rw [show collapseGo false (c :: cs) = ' ' :: collapseGo true cs by
              simp [collapseGo, hc]]
            simp only [wsSp, List.all_cons, Bool.and_eq_true]
            exact ⟨by decide, ih true⟩
      · rw [show collapseGo b (c :: cs) = c :: collapseGo false cs by
          simp [collapseGo, hc]]
        simp only [wsSp, List.all_cons, Bool.and_eq_true]
        refine ⟨?_, ih false⟩
        simp [hc]

theorem noAdjWs_cons_left (c : Char) (l : List Char) (hc : isWsChar c = false)
    (h : noAdjWs l = true) : noAdjWs (c :: l) = true := by
  cases l with
  | nil => rfl
  | cons d ds => simp [noAdjWs, hc, h]

theorem collapseGo_noAdj (l : List Char) : ∀ b, noAdjWs (collapseGo b l) = true := by
  induction l with
  | nil => intro b; rfl
  | cons c cs ih =>
      intro b
      by_cases hc : isWsChar c = true
      · cases b with
        | true => simpa [collapseGo, hc] using ih true
        | false =>
            rw [show collapseGo false (c :: cs) = ' ' :: collapseGo true cs by
              simp [collapseGo, hc]]
            have hX := collapseGo_headNotWs cs
            have hA := ih true
            cases hXeq : collapseGo true cs with
            | nil => rfl
            | cons x xs =>
                rw [hXeq] at hX hA
                simp only [headNotWs] at hX
                simp only [noAdjWs, Bool.and_eq_true]
                constructor
                · simp at hX
                  simp [hX]
                · exact hA
      · rw [show collapseGo b (c :: cs) = c :: collapseGo false cs by
          simp [collapseGo, hc]]
        exact noAdjWs_cons_left c _ (by simpa using hc) (ih false)

theorem dropWhile_eq_self_of_headNotWs (l : List Char) (h : headNotWs l = true) :
    l.dropWhile isWsChar = l := by
  cases l with
  | nil => rfl
  | cons c cs =>
      simp only [headNotWs, Bool.not_eq_true'] at h
      simp [List.dropWhile_cons, h]

theorem dropEndWs_eq_self_of_lastNotWs (l : List Char) (h : lastNotWs l = true) :
    dropEndWs l = l := by
  induction l with
  | nil => rfl
  | cons c cs ih =>
      cases cs with
      | nil =>
          simp only [lastNotWs, Bool.not_eq_true'] at h
          simp [dropEndWs, h]
      | cons d ds =>
          have ih' := ih (lastNotWs_tail c _ h)
          exact dropEndWs_cons_of c ih'

theorem trimChars_eq_self (l : List Char) (h1 : headNotWs l = true) (h2 : lastNotWs l = true) :
    trimChars l = l := by
  unfold trimChars
  rw [dropWhile_eq_self_of_headNotWs l h1, dropEndWs_eq_self_of_lastNotWs l h2]

theorem collapseGo_eq_self (l : List Char) (h1 : wsSp l = true) (h2 : noAdjWs l = true)
    (h3 : lastNotWs l = true) : collapseGo false l = l := by
  induction l with
  | nil => rfl
  | cons c cs ih =>
      by_cases hc : isWsChar c = true
      · have hcSp : c = ' ' := by
          simp only [wsSp, List.all_cons, Bool.and_eq_true] at h1
          rcases Bool.or_eq_true _ _ |>.mp h1.1 with h | h
          · rw [hc] at h; exact absurd h (by decide)
          · exact of_decide_eq_true h
        cases cs with
        | nil =>
            simp only [lastNotWs, Bool.not_eq_true'] at h3
            rw [hc] at h3; exact absurd h3 (by decide)
        | cons d ds =>
            have hd : isWsChar d = false := by
              simp only [noAdjWs, Bool.and_eq_true] at h2
              have := h2.1
              rcases Bool.not_eq_true' _ |>.mp this |> Bool.and_eq_false_iff.mp with h | h
              · rw [hc] at h; exact absurd h (by decide)
              · exact h
            have ihcs : collapseGo false (d :: ds) = d :: ds :=
              ih (wsSp_tail c _ h1) (noAdjWs_tail c _ h2) (lastNotWs_tail c _ h3)
            have hds : collapseGo false ds = ds := by
              rw [show collapseGo false (d :: ds) = d :: collapseGo false ds by
                simp [collapseGo, hd]] at ihcs
              injection ihcs
            rw [show collapseGo false (c :: d :: ds) = ' ' :: collapseGo true (d :: ds) by
              simp [collapseGo, hc]]
            rw [show collapseGo true (d :: ds) = d :: collapseGo false ds by
              simp [collapseGo, hd]]
            rw [hds, hcSp]
      · rw [show collapseGo false (c :: cs) = c :: collapseGo false cs by
          simp [collapseGo, hc]]
        rw [ih (wsSp_tail c _ h1) (noAdjWs_tail c _ h2) (lastNotWs_tail c _ h3)]

theorem jsTrim_idem (s : String) : jsTrim (jsTrim s) = jsTrim s := by
  show (trimChars (trimChars s.toList)).asString = (trimChars s.toList).asString
  rw [trimChars_eq_self (trimChars s.toList)
    (headNotWs_dropEndWs _ (headNotWs_dropWhile s.toList))
    (lastNotWs_dropEndWs _)]

theorem normWs_idem (s : String) : normWs (normWs s) = normWs s := by
  show (trimChars (collapseGo false (trimChars (collapseGo false s.toList)))).asString =
    (trimChars (collapseGo false s.toList)).asString
  have hSp : wsSp (trimChars (collapseGo false s.toList)) = true :=
    wsSp_dropEndWs _ (wsSp_dropWhile _ (collapseGo_wsSp s.toList false))
  have hAdj : noAdjWs (trimChars (collapseGo false s.toList)) = true :=
    noAdjWs_dropEndWs _ (noAdjWs_dropWhile _ (collapseGo_noAdj s.toList false))
  have hHead : headNotWs (trimChars (collapseGo false s.toList)) = true :=
    headNotWs_dropEndWs _ (headNotWs_dropWhile _)
  have hLast : lastNotWs (trimChars (collapseGo false s.toList)) = true :=
    lastNotWs_dropEndWs _
  rw [collapseGo_eq_self _ hSp hAdj hLast, trimChars_eq_self _ hHead hLast]

/-!
Per-strategy invariants: membership lemmas about the record lists the
detect loops emit.
-/

theorem strNeEmptyOfLen (s : String) (h : 1 ≤ s.length) : s ≠ "" := by
  intro contra
  rw [contra] at h
  simp at h

theorem assignOrders_mem (m : Msg) : ∀ (n : Nat) (l : List Msg), m ∈ assignOrders n l →
    ∃ m', m' ∈ l ∧ m.role = m'.role ∧ m.fullContent = m'.fullContent := by
  intro n l
  induction l generalizing n with
  | nil => intro h; simp [assignOrders] at h
  | cons x xs ih =>
      intro h
      simp only [assignOrders, List.mem_cons] at h
      rcases h with h | h
      · exact ⟨x, List.mem_cons_self x xs, by rw [h], by rw [h]⟩
      · rcases ih (n + 1) h with ⟨m', hm', h1, h2⟩
        exact ⟨m', List.mem_cons_of_mem x hm', h1, h2⟩

theorem sortByPos_mem (m : Msg) (l : List Msg) : m ∈ sortByPos l ↔ m ∈ l :=
  (List.perm_insertionSort _ l).mem_iff

theorem qwenUserContent_trim (el : Dom) : jsTrim (qwenUserContent el) = qwenUserContent el := by
  unfold qwenUserContent
  split
  · exact jsTrim_idem _
  · split
    · exact jsTrim_idem _
    · exact jsTrim_idem _

theorem qwenAssistantContent_trim (el : Dom) :
    jsTrim (qwenAssistantContent el) = qwenAssistantContent el := by
  unfold qwenAssistantContent
  split
  · exact jsTrim_idem _
  · split
    · exact jsTrim_idem _
    · exact jsTrim_idem _

theorem chatgptContent_norm (el : Dom) : normWs (chatgptContent el) = chatgptContent el :=
  normWs_idem _

theorem chatgptFrom_inv (cands : List (Nat × Dom)) : ∀ idx now m, m ∈ chatgptFrom cands idx now →
    m.order = none ∧ m.fullContent ≠ "" ∧ normWs m.fullContent = m.fullContent := by
  induction cands with
  | nil => intro idx now m h; simp [chatgptFrom] at h
  | cons p rest ih =>
      obtain ⟨pos, el⟩ := p
      intro idx now m h
      simp only [chatgptFrom] at h
      split at h
      · exact ih _ _ _ h
      · split at h
        · exact ih _ _ _ h
        · split at h
          · exact ih _ _ _ h
          · rcases List.mem_cons.mp h with h | h
            · subst h
              refine ⟨rfl, ?_, chatgptContent_norm el⟩
              simpa using ‹¬chatgptContent el = ""›
            · exact ih _ _ _ h

theorem qwenFrom_inv (cands : List (Nat × Dom)) : ∀ seen ord now m, m ∈ qwenFrom cands seen ord now →
    (m.role = "user" ∨ m.role = "assistant") ∧ m.fullContent ≠ "" ∧
      jsTrim m.fullContent = m.fullContent := by
  induction cands with
  | nil => intro seen ord now m h; simp [qwenFrom] at h
  | cons p rest ih =>
      obtain ⟨pos, el⟩ := p
      intro seen ord now m h
      simp only [qwenFrom] at h
      split at h
      · exact ih _ _ _ _ h
      · split at h
        · exact ih _ _ _ _ h
        · split at h
          · exact ih _ _ _ _ h
          · split at h
            · split at h
              · exact ih _ _ _ _ h
              · rcases List.mem_cons.mp h with h | h
                · subst h
                  exact ⟨Or.inl rfl, by simpa using ‹¬qwenUserContent el = ""›,
                    qwenUserContent_trim el⟩
                · exact ih _ _ _ _ h
            · split at h
              · exact ih _ _ _ _ h
              · rcases List.mem_cons.mp h with h | h
                · subst h
                  exact ⟨Or.inr rfl, by simpa using ‹¬qwenAssistantContent el = ""›,
                    qwenAssistantContent_trim el⟩
                · exact ih _ _ _ _ h

theorem deepseekRoleContent_shape (e : DSElem) (r c : String)
    (h : deepseekRoleContent e = some (r, c)) :
    (r = "user" ∨ r = "assistant") ∧ jsTrim c = c := by
  unfold deepseekRoleContent at h
  split at h
  · injection h with h'
    injection h' with h1 h2
    subst h1; subst h2
    exact ⟨Or.inl rfl, jsTrim_idem _⟩
  · split at h
    · injection h with h'
      injection h' with h1 h2
      subst h1; subst h2
      exact ⟨Or.inr rfl, jsTrim_idem _⟩
    · split at h
      · injection h with h'
        injection h' with h1 h2
        subst h1; subst h2
        exact ⟨Or.inr rfl, jsTrim_idem _⟩
      · split at h
        · injection h with h'
          injection h' with h1 h2
          subst h1; subst h2
          exact ⟨Or.inr rfl, jsTrim_idem _⟩
        · exact absurd h (by simp)

theorem deepseekFrom_inv (els : List DSElem) : ∀ idx ord now m, m ∈ deepseekFrom els idx ord now →
    (m.role = "user" ∨ m.role = "assistant") ∧ m.fullContent ≠ "" ∧
      normWs m.fullContent = m.fullContent := by
  induction els with
  | nil => intro idx ord now m h; simp [deepseekFrom] at h
  | cons e rest ih =>
      intro idx ord now m h
      simp only [deepseekFrom] at h
      split at h
      · exact ih _ _ _ _ h
      · rename_i r c hrc
        have hshape := deepseekRoleContent_shape e r c hrc
        split at h
        · exact ih _ _ _ _ h
        · split at h
          · exact ih _ _ _ _ h
          · rcases List.mem_cons.mp h with h | h
            · subst h
              rename_i hc0 hcontent
              exact ⟨hshape.1, by simpa using hcontent, normWs_idem _⟩
            · exact ih _ _ _ _ h

theorem mem_ite_singleton {α : Type} (m x : α) (c : Prop) [Decidable c]
    (h : m ∈ (if c then [x] else [])) : m = x ∧ c := by
  split at h
  · exact ⟨List.mem_singleton.mp h, ‹c›⟩
  · simp at h

theorem claudeAggregate_len (blocks : List String) (c : String)
    (h : claudeAggregate blocks = some c) : 10 ≤ c.length := by
  simp only [claudeAggregate] at h
  split at h
  · rename_i hcond
    injection h with h'
    subst h'
    simp only [Bool.and_eq_true, decide_eq_true_eq] at hcond
    exact hcond.1.1.1
  · exact absurd h (by simp)

theorem claudeStep_inv (u : ClaudeUser) (uidx ord now : Nat) (m : Msg)
    (h : m ∈ (claudeStep u uidx ord now).1) :
    (m.role = "user" ∨ m.role = "assistant") ∧ m.fullContent ≠ "" := by
  obtain ⟨upos, utext, ublocks⟩ := u
  unfold claudeStep at h
  cases ublocks with
  | nil =>
      dsimp only at h
      obtain ⟨hm, hlen⟩ := mem_ite_singleton _ _ _ h
      subst hm
      exact ⟨Or.inl rfl, strNeEmptyOfLen _ hlen⟩
  | cons b bs =>
      dsimp only at h
      cases hagg : claudeAggregate ((b :: bs).map Prod.snd) with
      | some cc =>
          rw [hagg] at h
          dsimp only at h
          rcases List.mem_append.mp h with h | h
          · obtain ⟨hm, hlen⟩ := mem_ite_singleton _ _ _ h
            subst hm
            exact ⟨Or.inl rfl, strNeEmptyOfLen _ hlen⟩
          · rcases List.mem_singleton.mp h with h'
            subst h'
            exact ⟨Or.inr rfl,
              strNeEmptyOfLen _ (le_trans (by norm_num) (claudeAggregate_len _ _ hagg))⟩
      | none =>
          rw [hagg] at h
          dsimp only at h
          obtain ⟨hm, hlen⟩ := mem_ite_singleton _ _ _ h
          subst hm
          exact ⟨Or.inl rfl, strNeEmptyOfLen _ hlen⟩

theorem claudeDetectFrom_inv (users : List ClaudeUser) :
    ∀ uidx ord now m, m ∈ claudeDetectFrom users uidx ord now →
      (m.role = "user" ∨ m.role = "assistant") ∧ m.fullContent ≠ "" := by
  induction users with
  | nil => intro uidx ord now m h; simp [claudeDetectFrom] at h
  | cons u rest ih =>
      intro uidx ord now m h
      simp only [claudeDetectFrom] at h
      rcases List.mem_append.mp h with h | h
      · exact claudeStep_inv u uidx ord now m h
      · exact ih _ _ _ _ h

/-!
Timestamp commutation: every strategy writes `Date.now()` into the
`timestamp` field only, so a scan at time `now` is the scan at time 0 with
all timestamps replaced.
-/

@[simp] theorem setTime_pos (n : Nat) (m : Msg) : (setTime n m).pos = m.pos := rfl

@[simp] theorem msgKey_setTime (n : Nat) (m : Msg) : msgKey (setTime n m) = msgKey m := rfl

theorem chatgptFrom_setTime (cands : List (Nat × Dom)) : ∀ idx now,
    chatgptFrom cands idx now = (chatgptFrom cands idx 0).map (setTime now) := by
  induction cands with
  | nil => intro idx now; rfl
  | cons p rest ih =>
      obtain ⟨pos, el⟩ := p
      intro idx now
      simp only [chatgptFrom]
      cases hattr : el.getAttr "data-message-author-role" with
      | none => exact ih _ _
      | some roleAttr =>
          by_cases hr : roleAttr = ""
          · simp only [if_pos hr]
            exact ih _ _
          · simp only [if_neg hr]
            by_cases hc : chatgptContent el = ""
            · simp only [if_pos hc]
              exact ih _ _
            · simp only [if_neg hc, List.map_cons]
              rw [ih]
              rfl

theorem qwenFrom_setTime (cands : List (Nat × Dom)) : ∀ seen ord now,
    qwenFrom cands seen ord now = (qwenFrom cands seen ord 0).map (setTime now) := by
  induction cands with
  | nil => intro seen ord now; rfl
  | cons p rest ih =>
      obtain ⟨pos, el⟩ := p
      intro seen ord now
      simp only [qwenFrom]
      split
      · exact ih _ _ _
      · split
        · exact ih _ _ _
        · split
          · exact ih _ _ _
          · split
            · split
              · exact ih _ _ _
              · simp only [List.map_cons]
                rw [ih]
                rfl
            · split
              · exact ih _ _ _
              · simp only [List.map_cons]
                rw [ih]
                rfl

theorem orderedInsert_map_setTime (now : Nat) (a : Msg) (l : List Msg) :
    (l.map (setTime now)).orderedInsert (fun x y => x.pos ≤ y.pos) (setTime now a) =
      (l.orderedInsert (fun x y => x.pos ≤ y.pos) a).map (setTime now) := by
  induction l with
  | nil => rfl
  | cons b bs ih =>
      by_cases h : a.pos ≤ b.pos
      · simp [List.orderedInsert, h]
      · simp [List.orderedInsert, h, ih]

theorem sortByPos_map_setTime (now : Nat) (l : List Msg) :
    sortByPos (l.map (setTime now)) = (sortByPos l).map (setTime now) := by
  induction l with
  | nil => rfl
  | cons b bs ih =>
      simp only [sortByPos, List.map_cons, List.insertionSort] at *
      rw [ih]
      exact orderedInsert_map_setTime now b (bs.insertionSort _)

theorem assignOrders_map_setTime (now : Nat) : ∀ (n : Nat) (l : List Msg),
    assignOrders n (l.map (setTime now)) = (assignOrders n l).map (setTime now) := by
  intro n l
  induction l generalizing n with
  | nil => rfl
  | cons x xs ih => simp only [List.map_cons, assignOrders, ih]; rfl

theorem deepseekFrom_setTime (els : List DSElem) : ∀ idx ord now,
    deepseekFrom els idx ord now = (deepseekFrom els idx ord 0).map (setTime now) := by
  induction els with
  | nil => intro idx ord now; rfl
  | cons e rest ih =>
      intro idx ord now
      simp only [deepseekFrom]
      split
      · exact ih _ _ _
      · split
        · exact ih _ _ _
        · split
          · exact ih _ _ _
          · simp only [List.map_cons]
            rw [ih]
            rfl

theorem claudeStep_setTime (u : ClaudeUser) (uidx ord now : Nat) :
    (claudeStep u uidx ord now).1 = ((claudeStep u uidx ord 0).1).map (setTime now) ∧
      (claudeStep u uidx ord now).2 = (claudeStep u uidx ord 0).2 := by
  obtain ⟨upos, utext, ublocks⟩ := u
  unfold claudeStep
  cases ublocks with
  | nil =>
      dsimp only
      constructor
      · by_cases hc : (collapseWs (jsTrim utext)).length ≥ 1
        · simp only [if_pos hc, List.map_cons, List.map_nil]
          rfl
        · simp only [if_neg hc, List.map_nil]
      · rfl
  | cons b bs =>
      dsimp only
      cases claudeAggregate ((b :: bs).map Prod.snd) with
      | some cc =>
          dsimp only
          constructor
          · by_cases hc : (collapseWs (jsTrim utext)).length ≥ 1
            · simp only [if_pos hc, List.map_append, List.map_cons, List.map_nil]
              rfl
            · simp only [if_neg hc, List.nil_append, List.map_cons, List.map_nil]
              rfl
          · rfl
      | none =>
          dsimp only
          constructor
          · by_cases hc : (collapseWs (jsTrim utext)).length ≥ 1
            · simp only [if_pos hc, List.map_cons, List.map_nil]
              rfl
            · simp only [if_neg hc, List.map_nil]
          · rfl

theorem claudeDetectFrom_setTime (users : List ClaudeUser) : ∀ uidx ord now,
    claudeDetectFrom users uidx ord now =
      (claudeDetectFrom users uidx ord 0).map (setTime now) := by
  induction users with
  | nil => intro uidx ord now; rfl
  | cons u rest ih =>
      intro uidx ord now
      simp only [claudeDetectFrom, List.map_append]
      rw [(claudeStep_setTime u uidx ord now).1, (claudeStep_setTime u uidx ord now).2,
        ih _ _ now]

theorem qwenDetectFrom_setTime (cands : List (Nat × Dom)) (now : Nat) :
    qwenDetectFrom cands now = (qwenDetectFrom cands 0).map (setTime now) := by
  unfold qwenDetectFrom
  rw [qwenFrom_setTime cands [] 0 now, sortByPos_map_setTime, assignOrders_map_setTime]

theorem chatgptDetectMessages_setTime (doc : Dom) (now : Nat) :
    chatgptDetectMessages doc now = (chatgptDetectMessages doc 0).map (setTime now) := by
  unfold chatgptDetectMessages
  cases docQuerySel (hasTag "main") doc with
  | none => rfl
  | some container => exact chatgptFrom_setTime _ 0 now

/-!
Order and position lemmas for the Qwen sort-and-renumber step.
-/

theorem qwenFrom_pos_sublist (cands : List (Nat × Dom)) : ∀ seen ord now,
    ((qwenFrom cands seen ord now).map Msg.pos).Sublist (cands.map Prod.fst) := by
  induction cands with
  | nil => intro seen ord now; simp [qwenFrom]
  | cons p rest ih =>
      obtain ⟨pos, el⟩ := p
      intro seen ord now
      simp only [qwenFrom, List.map_cons]
      split
      · exact (ih _ _ _).cons _
      · split
        · exact (ih _ _ _).cons _
        · split
          · exact (ih _ _ _).cons _
          · split
            · split
              · exact (ih _ _ _).cons _
              · simp only [List.map_cons]
                exact (ih _ _ _).cons₂ _
            · split
              · exact (ih _ _ _).cons _
              · simp only [List.map_cons]
                exact (ih _ _ _).cons₂ _

theorem assignOrders_map_order : ∀ (n : Nat) (l : List Msg),
    (assignOrders n l).map Msg.order = (List.range' n l.length).map some := by
  intro n l
  induction l generalizing n with
  | nil => rfl
  | cons x xs ih => simp [assignOrders, List.range'_succ, ih]

theorem assignOrders_map_pos : ∀ (n : Nat) (l : List Msg),
    (assignOrders n l).map Msg.pos = l.map Msg.pos := by
  intro n l
  induction l generalizing n with
  | nil => rfl
  | cons x xs ih => simp [assignOrders, ih]

theorem assignOrders_length (n : Nat) (l : List Msg) :
    (assignOrders n l).length = l.length := by
  have := congrArg List.length (assignOrders_map_order n l)
  simpa using this

theorem sortByPos_chain (l : List Msg) (hnd : (l.map Msg.pos).Nodup) :
    ((sortByPos l).map Msg.pos).Chain' (· < ·) := by
  have hperm : List.Perm (sortByPos l) l := List.perm_insertionSort _ l
  have hnd' : ((sortByPos l).map Msg.pos).Nodup := ((hperm.map Msg.pos).nodup_iff).mpr hnd
  have hsorted : (sortByPos l).Pairwise (fun a b => a.pos ≤ b.pos) :=
    List.sorted_insertionSort _ l
  have hne : (sortByPos l).Pairwise (fun a b => a.pos ≠ b.pos) :=
    List.pairwise_map.mp hnd'
  have hlt : (sortByPos l).Pairwise (fun a b => a.pos < b.pos) :=
    (hsorted.and hne).imp (fun h => lt_of_le_of_ne h.1 h.2)
  rw [List.chain'_iff_pairwise]
  exact List.pairwise_map.mpr hlt

/-!
The claims.
-/

/-- C1, counterexample: the ChatGPT strategy's scan of a document with one
user message returns a record carrying no `order` field at all (`none`
models the absent property), refuting "the returned message sequence
carries an `order` field on every record ... for every target strategy". -/
theorem claim_C1_cex : (chatgptDetectMessages exC1Doc 0).map Msg.order = [none] := by decide

/-- C1 (amended): for the Qwen strategy, whatever order the matcher
discovered the candidates in (any candidate list with pairwise distinct
document positions), the returned records carry `order` values forming the
contiguous range 0..N-1 and their document positions strictly increase
along the sequence; the ChatGPT strategy's records carry no `order` field. -/
theorem claim_C1 :
    (∀ (cands : List (Nat × Dom)) (now : Nat), (cands.map Prod.fst).Nodup →
      (qwenDetectFrom cands now).map Msg.order =
          (List.range (qwenDetectFrom cands now).length).map some ∧
        ((qwenDetectFrom cands now).map Msg.pos).Chain' (· < ·)) ∧
    (∀ (doc : Dom) (now : Nat), ∀ m ∈ chatgptDetectMessages doc now, m.order = none) := by
  constructor
  · intro cands now hnd
    constructor
    · unfold qwenDetectFrom
      rw [assignOrders_map_order, assignOrders_length, List.range_eq_range']
    · unfold qwenDetectFrom
      rw [assignOrders_map_pos]
      exact sortByPos_chain _
        (List.Nodup.sublist (qwenFrom_pos_sublist cands [] 0 now) hnd)
  · intro doc now m hm
    unfold chatgptDetectMessages at hm
    cases h : docQuerySel (hasTag "main") doc with
    | none => rw [h] at hm; simp at hm
    | some container =>
        rw [h] at hm
        exact (chatgptFrom_inv _ _ _ _ hm).1

/-- C1, witness: the amended statement applied to the scrambled candidate
list `exC1Cands` (discovery order 9, 2, 5). -/
theorem claim_C1_witness :
    (qwenDetectFrom exC1Cands 5).map Msg.order =
        (List.range (qwenDetectFrom exC1Cands 5).length).map some ∧
      ((qwenDetectFrom exC1Cands 5).map Msg.pos).Chain' (· < ·) :=
  claim_C1.1 exC1Cands 5 (by decide)

/-- C3, counterexample: the sentence the specification quotes, `"Model can
make mistakes. Please double-check responses."`, does not match any of the
source's disclaimer patterns (they all target "claude can make mistakes" /
"please double-check" at specific positions), so the assembled turn IS
emitted as an assistant record, refuting the claimed rejection. -/
theorem claim_C3_cex :
    (claudeDetectFrom [⟨0, "Question", [(1, specDisclaimer)]⟩] 0 0 0).map
        (fun m => (m.role, m.fullContent)) =
      [("user", "Question"), ("assistant", specDisclaimer)] := by decide

/-- C3 (amended): an assembled turn equal to `"Claude can make mistakes.
Please double-check responses."` — the phrase the source's disclaimer
patterns actually target, fully matched and under 150 characters — is
rejected: no assistant record is emitted for that user turn. -/
theorem claim_C3 :
    (claudeDetectFrom [⟨0, "Question", [(1, codeDisclaimer)]⟩] 0 0 0).map
        (fun m => (m.role, m.fullContent)) = [("user", "Question")] ∧
      claudeAggregate [codeDisclaimer] = none := by decide

theorem orQ_isSome (a b : Option Dom) (h : b.isSome = true) : (orQ a b).isSome = true := by
  cases a with
  | some x => rfl
  | none => exact h

/-- C4, counterexample: on a document that has a `body` but no `main`, the
ChatGPT strategy's container resolution returns `null` (it is a single
`document.querySelector('main')` with no fallback chain), and its
`detectMessages` bails out, refuting "container resolution never fails for
every target strategy". -/
theorem claim_C4_cex :
    chatgptGetContainer exC4Doc = none ∧
      (docQuerySel (hasTag "body") exC4Doc).isSome = true ∧
      chatgptDetectMessages exC4Doc 0 = [] := by decide

/-- C4 (amended): for the Qwen, Claude and DeepSeek strategies, container
resolution falls through its ordered selector chain down to `document.body`
and therefore returns a node on every document that has a body; the
ChatGPT strategy has no fallback and fails when `main` is absent. -/
theorem claim_C4 : ∀ doc : Dom, (docQuerySel (hasTag "body") doc).isSome = true →
    (qwenGetContainer doc).isSome = true ∧ (claudeGetContainer doc).isSome = true ∧
      ∀ anc : Option Dom, (deepseekGetContainer doc anc).isSome = true := by
  intro doc hbody
  refine ⟨?_, ?_, ?_⟩
  · exact orQ_isSome _ _ (orQ_isSome _ _ (orQ_isSome _ _ hbody))
  · exact orQ_isSome _ _ (orQ_isSome _ _ hbody)
  · intro anc
    exact orQ_isSome _ _ (orQ_isSome _ _ (orQ_isSome _ _ (orQ_isSome _ _
      (orQ_isSome _ _ hbody))))

/-- C4, witness: the amended statement applied to the `main`-less document
`exC4Doc` (with the ancestor-traversal step of DeepSeek yielding nothing). -/
theorem claim_C4_witness :
    (qwenGetContainer exC4Doc).isSome = true ∧ (claudeGetContainer exC4Doc).isSome = true ∧
      (deepseekGetContainer exC4Doc none).isSome = true := by
  have h := claim_C4 exC4Doc (by decide)
  exact ⟨h.1, h.2.1, h.2.2 none⟩

/-- C5, counterexample: the ChatGPT strategy object defines neither the
streaming-detection operation nor the two timing constants, refuting
"every target strategy implements the full capability contract". -/
theorem claim_C5_cex :
    chatgptCaps.hasIsStreaming = false ∧ chatgptCaps.debounceMs = none ∧
      chatgptCaps.settleMs = none := by decide

/-- C5 (amended): the Qwen, Claude and DeepSeek strategies implement the
boolean streaming-detection operation and both timing constants, with the
debounce constant in 300–1000 ms and the settle constant in 1500–3000 ms;
the ChatGPT strategy implements none of the three. -/
theorem claim_C5 :
    ∀ c ∈ [qwenCaps, claudeCaps, deepseekCaps], c.hasIsStreaming = true ∧
      ∃ d s, c.debounceMs = some d ∧ c.settleMs = some s ∧
        300 ≤ d ∧ d ≤ 1000 ∧ 1500 ≤ s ∧ s ≤ 3000 := by
  intro c hc
  simp only [List.mem_cons, List.mem_singleton] at hc
  rcases hc with hc | hc | hc | hc
  · subst hc
    exact ⟨rfl, 400, 1500, rfl, rfl, by decide, by decide, by decide, by decide⟩
  · subst hc
    exact ⟨rfl, 1000, 3000, rfl, rfl, by decide, by decide, by decide, by decide⟩
  · subst hc
    exact ⟨rfl, 300, 1500, rfl, rfl, by decide, by decide, by decide, by decide⟩
  · simp at hc

/-- C5, witness: the amended statement applied to the Qwen strategy. -/
theorem claim_C5_witness :
    qwenCaps.hasIsStreaming = true ∧
      ∃ d s, qwenCaps.debounceMs = some d ∧ qwenCaps.settleMs = some s ∧
        300 ≤ d ∧ d ≤ 1000 ∧ 1500 ≤ s ∧ s ≤ 3000 :=
  claim_C5 qwenCaps (by decide)

/-- C8: the inferred-turn aggregator on the block texts
`["The answer is 42.", "42."]` drops the later block — whose normalized
text is an exact substring of the first and shorter than 80% of its
length — and the surviving aggregated text is `"The answer is 42."`. -/
theorem claim_C8 : claudeAggregate ["The answer is 42.", "42."] = some "The answer is 42." := by
  decide

/-- C6, counterexample: the Qwen strategy's extraction only trims — the
user message whose text node holds `"hi\n\nthere"` is emitted with that
exact `fullContent`, interior whitespace run intact, refuting "every run
of whitespace is collapsed to a single space" for every strategy. -/
theorem claim_C6_cex :
    (qwenDetectMessages exC6Doc 0).map Msg.fullContent = ["hi\n\nthere"] ∧
      normWs "hi\n\nthere" = "hi there" ∧ "hi\n\nthere" ≠ "hi there" := by decide

/-- C6 (amended): the ChatGPT and DeepSeek strategies emit `fullContent`
fully normalized (whitespace runs collapsed to single spaces, surrounding
whitespace trimmed — a fixed point of the normalizer); the Qwen strategy
only trims surrounding whitespace (a fixed point of `trim`), leaving
interior whitespace runs intact. -/
theorem claim_C6 :
    (∀ (doc : Dom) (now : Nat), ∀ m ∈ chatgptDetectMessages doc now,
        normWs m.fullContent = m.fullContent) ∧
    (∀ (els : List DSElem) (now : Nat), ∀ m ∈ deepseekDetectFrom els now,
        normWs m.fullContent = m.fullContent) ∧
    (∀ (doc : Dom) (now : Nat), ∀ m ∈ qwenDetectMessages doc now,
        jsTrim m.fullContent = m.fullContent) := by
  refine ⟨?_, ?_, ?_⟩
  · intro doc now m hm
    unfold chatgptDetectMessages at hm
    cases h : docQuerySel (hasTag "main") doc with
    | none => rw [h] at hm; simp at hm
    | some container =>
        rw [h] at hm
        exact (chatgptFrom_inv _ _ _ _ hm).2.2
  · intro els now m hm
    exact (deepseekFrom_inv _ _ _ _ _ hm).2.2
  · intro doc now m hm
    unfold qwenDetectMessages qwenDetectFrom at hm
    rcases assignOrders_mem m 0 _ hm with ⟨m', hm', _, hfc⟩
    rw [hfc]
    exact (qwenFrom_inv _ _ _ _ _ ((sortByPos_mem m' _).mp hm')).2.2

/-- C6, witness: the amended statement applied to the concrete scans of
`exC1Doc` (ChatGPT), `[exDSElem]` (DeepSeek) and `exQwenDoc` (Qwen). -/
theorem claim_C6_witness :
    normWs exChatgptRec.fullContent = exChatgptRec.fullContent ∧
      normWs exDSRec.fullContent = exDSRec.fullContent ∧
      jsTrim exQwenRec.fullContent = exQwenRec.fullContent :=
  ⟨claim_C6.1 exC1Doc 0 exChatgptRec (by decide),
   claim_C6.2.1 [exDSElem] 0 exDSRec (by decide),
   claim_C6.2.2 exQwenDoc 0 exQwenRec (by decide)⟩

/-- C7: discovery is deterministic per document state — two scans of the
same unchanged input at different capture times agree on `id`, `role`,
`content` and `fullContent` at every position (only the timestamp
differs), for all four strategies; the generated ids are derived only from
role, positional index and the content fingerprint. -/
theorem claim_C7 : ∀ (doc : Dom) (els : List DSElem) (users : List ClaudeUser)
    (uidx ord t₁ t₂ : Nat),
    (chatgptDetectMessages doc t₁).map msgKey = (chatgptDetectMessages doc t₂).map msgKey ∧
      (qwenDetectMessages doc t₁).map msgKey = (qwenDetectMessages doc t₂).map msgKey ∧
      (deepseekDetectFrom els t₁).map msgKey = (deepseekDetectFrom els t₂).map msgKey ∧
      (claudeDetectFrom users uidx ord t₁).map msgKey =
        (claudeDetectFrom users uidx ord t₂).map msgKey := by
  intro doc els users uidx ord t₁ t₂
  have hcomp : ∀ t : Nat, (msgKey ∘ setTime t) = msgKey := fun t => funext fun m => rfl
  refine ⟨?_, ?_, ?_, ?_⟩
  · rw [chatgptDetectMessages_setTime doc t₁, chatgptDetectMessages_setTime doc t₂,
      List.map_map, List.map_map, hcomp, hcomp]
  · unfold qwenDetectMessages
    rw [qwenDetectFrom_setTime _ t₁, qwenDetectFrom_setTime _ t₂,
      List.map_map, List.map_map, hcomp, hcomp]
  · unfold deepseekDetectFrom
    rw [deepseekFrom_setTime _ _ _ t₁, deepseekFrom_setTime _ _ _ t₂,
      List.map_map, List.map_map, hcomp, hcomp]
  · rw [claudeDetectFrom_setTime _ _ _ t₁, claudeDetectFrom_setTime _ _ _ t₂,
      List.map_map, List.map_map, hcomp, hcomp]

/-- C9, counterexample: a ChatGPT message carrying
`data-message-author-role="system"` is emitted with role `"system"` — the
raw attribute value is trusted, so a role outside {user, assistant} IS
returned, refuting the claim for every strategy. -/
theorem claim_C9_cex : (chatgptDetectMessages exC9Doc 0).map Msg.role = ["system"] := by decide

/-- C9 (amended): the Qwen, DeepSeek and Claude strategies never emit a
record with empty `fullContent` or a role outside {user, assistant}; the
ChatGPT strategy never emits empty `fullContent` but copies the raw role
attribute value into `role`, which can lie outside {user, assistant}. -/
theorem claim_C9 :
    (∀ (doc : Dom) (now : Nat), ∀ m ∈ qwenDetectMessages doc now,
        (m.role = "user" ∨ m.role = "assistant") ∧ m.fullContent ≠ "") ∧
    (∀ (els : List DSElem) (now : Nat), ∀ m ∈ deepseekDetectFrom els now,
        (m.role = "user" ∨ m.role = "assistant") ∧ m.fullContent ≠ "") ∧
    (∀ (users : List ClaudeUser) (uidx ord now : Nat),
        ∀ m ∈ claudeDetectFrom users uidx ord now,
        (m.role = "user" ∨ m.role = "assistant") ∧ m.fullContent ≠ "") ∧
    (∀ (doc : Dom) (now : Nat), ∀ m ∈ chatgptDetectMessages doc now, m.fullContent ≠ "") := by
  refine ⟨?_, ?_, ?_, ?_⟩
  · intro doc now m hm
    unfold qwenDetectMessages qwenDetectFrom at hm
    rcases assignOrders_mem m 0 _ hm with ⟨m', hm', hrole, hfc⟩
    have hinv := qwenFrom_inv _ _ _ _ _ ((sortByPos_mem m' _).mp hm')
    rw [hrole, hfc]
    exact ⟨hinv.1, hinv.2.1⟩
  · intro els now m hm
    have hinv := deepseekFrom_inv _ _ _ _ _ hm
    exact ⟨hinv.1, hinv.2.1⟩
  · intro users uidx ord now m hm
    exact claudeDetectFrom_inv users uidx ord now m hm
  · intro doc now m hm
    unfold chatgptDetectMessages at hm
    cases h : docQuerySel (hasTag "main") doc with
    | none => rw [h] at hm; simp at hm
    | some container =>
        rw [h] at hm
        exact (chatgptFrom_inv _ _ _ _ hm).2.1

/-- C9, witness: the amended statement applied to the concrete scans of
`exQwenDoc`, `[exDSElem]`, one Claude user node, and `exC1Doc`. -/
theorem claim_C9_witness :
    ((exQwenRec.role = "user" ∨ exQwenRec.role = "assistant") ∧ exQwenRec.fullContent ≠ "") ∧
      ((exDSRec.role = "user" ∨ exDSRec.role = "assistant") ∧ exDSRec.fullContent ≠ "") ∧
      ((exClaudeURec.role = "user" ∨ exClaudeURec.role = "assistant") ∧
        exClaudeURec.fullContent ≠ "") ∧
      exChatgptRec.fullContent ≠ "" :=
  ⟨claim_C9.1 exQwenDoc 0 exQwenRec (by decide),
   claim_C9.2.1 [exDSElem] 0 exDSRec (by decide),
   claim_C9.2.2.1 [⟨0, "Hi!", [(1, "short")]⟩] 0 0 0 exClaudeURec (by decide),
   claim_C9.2.2.2 exC1Doc 0 exChatgptRec (by decide)⟩

/-- C10: an inferred assistant turn whose combined content is 1 to 9
characters long — non-empty — is silently dropped by the final validation's
10-character threshold: no assistant record is emitted for that user node. -/
theorem claim_C10 : ∀ (blocks : List (Nat × String)) (upos : Nat) (utext : String)
    (uidx ord now : Nat),
    1 ≤ (claudeCombined (blocks.map Prod.snd)).length →
    (claudeCombined (blocks.map Prod.snd)).length ≤ 9 →
    ∀ m ∈ claudeDetectFrom [⟨upos, utext, blocks⟩] uidx ord now, m.role ≠ "assistant" := by
  intro blocks upos utext uidx ord now h1 h9 m hm
  have hlt : ¬(10 ≤ (claudeCombined (blocks.map Prod.snd)).length) := by omega
  have hagg : claudeAggregate (blocks.map Prod.snd) = none := by
    unfold claudeAggregate
    dsimp only
    rw [decide_eq_false hlt]
    rfl
  simp only [claudeDetectFrom] at hm
  rcases List.mem_append.mp hm with hm | hm
  · unfold claudeStep at hm
    cases hb : blocks with
    | nil =>
        rw [hb] at hm
        dsimp only at hm
        obtain ⟨hmeq, _⟩ := mem_ite_singleton _ _ _ hm
        subst hmeq
        show ("user" : String) ≠ "assistant"
        decide
    | cons b bs =>
        rw [hb] at hm
        rw [hb] at hagg
        dsimp only at hm
        rw [hagg] at hm
        dsimp only at hm
        obtain ⟨hmeq, _⟩ := mem_ite_singleton _ _ _ hm
        subst hmeq
        show ("user" : String) ≠ "assistant"
        decide
  · simp [claudeDetectFrom] at hm

/-- C10, witness: the single block `"short"` (5 characters) yields only the
user record for its user node. -/
theorem claim_C10_witness : exClaudeURec.role ≠ "assistant" :=
  claim_C10 [(1, "short")] 0 "Hi!" 0 0 0 (by decide) (by decide) exClaudeURec (by decide)

/-- C2, counterexample: a ChatGPT candidate whose specific content
containers are all absent and which contains a button; the emitted
`fullContent` is `"Hello Click me"` — the button's text is retained, so the
final fallback does NOT strip interactive descendants (a clone-and-strip of
the same subtree yields `"Hello"`), refuting the claimed mandatory
clone-and-strip last resort for every strategy. -/
theorem claim_C2_cex :
    (chatgptDetectMessages exC2Doc 0).map Msg.fullContent = ["Hello Click me"] ∧
      jsTrim (domText (stripD qwenStrip6 exC2Cand)) = "Hello" ∧
      strContains "Hello Click me" "Click me" = true := by decide

/-- C2 (amended): when every specific content selector fails, the Qwen
strategy's last resort clones the candidate and strips interactive/control
descendants, emitting one record whose content is the stripped text
whenever that text is non-empty; the ChatGPT strategy's last resort takes
the candidate's raw text without stripping, emitting one record whenever
the normalized raw text is non-empty. -/
theorem claim_C2 :
    (∀ (el : Dom) (pos now : Nat),
        hasTag "div" el = true →
        strStarts el.idAttr "message-" = true →
        strContains el.idAttr "input-container" = false →
        strContains el.idAttr "button-" = false →
        strContains el.idAttr "language" = false →
        (classWords el.className).contains "user-message" = true →
        qwenUserContentSel el = none →
        querySelInside (hasClassTok "user-message-text-content") el = none →
        jsTrim (domText (stripD qwenStrip6 el)) ≠ "" →
        (qwenDetectFrom [(pos, el)] now).map Msg.fullContent =
          [jsTrim (domText (stripD qwenStrip6 el))]) ∧
    (∀ (el : Dom) (pos idx now : Nat) (role : String),
        el.getAttr "data-message-author-role" = some role →
        role ≠ "" →
        querySelInside (hasClassTok "whitespace-pre-wrap") el = none →
        querySelInside (hasClassTok "markdown") el = none →
        querySelInside (hasClassTok "text-base") el = none →
        querySelInside (classContains "message") el = none →
        normWs (jsTrim (domText el)) ≠ "" →
        (chatgptFrom [(pos, el)] idx now).map Msg.fullContent =
          [normWs (jsTrim (domText el))]) := by
  constructor
  · intro el pos now hdiv hstart hic hbc hlc huser hsel htc hT
    have hne : el.idAttr ≠ "" := by
      intro contra
      rw [contra] at hstart
      exact absurd hstart (by decide)
    have hcontent : qwenUserContent el = jsTrim (domText (stripD qwenStrip6 el)) := by
      unfold qwenUserContent
      rw [hsel, htc]
    unfold qwenDetectFrom
    simp only [qwenFrom, hne, hic, hbc, hlc, huser, List.contains_nil, decide_eq_false hne,
      Bool.false_or, Bool.or_false, if_false, Bool.not_true, Bool.false_and, if_true,
      hcontent, hT]
    simp [sortByPos, List.insertionSort, List.orderedInsert, assignOrders, hT]
  · intro el pos idx now role hattr hrole hws hmd htb hmsg hne
    have hcontent : chatgptContent el = normWs (jsTrim (domText el)) := by
      unfold chatgptContent
      rw [hws, hmd, htb, hmsg]
      rfl
    simp only [chatgptFrom, hattr, hrole, if_neg hrole, hcontent, hne, if_false]
    simp [hne]

/-- C2, witness: the amended statement applied to the concrete candidates
`exC2QwenCand` (stripped text `"Hola"`) and `exC2Cand` (raw text
`"Hello Click me"`). -/
theorem claim_C2_witness :
    (qwenDetectFrom [(3, exC2QwenCand)] 0).map Msg.fullContent =
        [jsTrim (domText (stripD qwenStrip6 exC2QwenCand))] ∧
      (chatgptFrom [(0, exC2Cand)] 0 0).map Msg.fullContent =
        [normWs (jsTrim (domText exC2Cand))] :=
  ⟨claim_C2.1 exC2QwenCand 3 0 (by decide) (by decide) (by decide) (by decide) (by decide)
      (by decide) (by decide) (by decide) (by decide),
   claim_C2.2 exC2Cand 0 0 0 "user" (by decide) (by decide) (by decide) (by decide)
      (by decide) (by decide) (by decide)⟩
